import Mathlib

/-!
Verification of the jira-agent webhook/session layer.

The development shallowly embeds the routing, guarding and correlation code
of the repository (the latest revision of the handlers in src/agent.ts,
together with the helpers in src/jira.ts) and proves or refutes the frozen
claims about it.  JavaScript strings are modelled as Lean `String`
(logically a list of characters), JavaScript `null`/`undefined` as
`Option`, ADF rich-text documents as an inductive JSON-like tree, and the
external key/value store as a function from keys to optional records.
-/

namespace JiraAgent

/-- Truthiness of an optional JS string: `undefined`/`null` and the empty
string are falsy, every other string is truthy. -/
def jsTruthyStr : Option String → Bool
  | some s => s ≠ ""
  | none => false

/-! ## ADF documents (Atlassian Document Format)

Model of the dynamic node values walked by `adfContainsMention` and
`adfText` in src/jira.ts: a node is `null`/`undefined`, a bare string, an
array of nodes, or an object carrying a `type`, optional `attrs.id`,
optional `attrs.text`, optional `text`, and optional `content`.  Numeric
and boolean JSON leaves behave exactly like `nullv` in both walkers and in
the truthiness test relevant here, so they are not represented separately.
-/

inductive Adf : Type where
  | nullv : Adf
  | str : String → Adf
  | arr : List Adf → Adf
  | obj : String → Option String → Option String → Option String → Option Adf → Adf

/-- JS truthiness of an ADF value: `null` and `""` are falsy, arrays and
objects are truthy. -/
def Adf.truthy : Adf → Bool
  | .nullv => false
  | .str s => s ≠ ""
  | .arr _ => true
  | .obj _ _ _ _ _ => true

mutual
/-- Embedding of `adfContainsMention` (src/jira.ts lines 373-380): a node
matches when it is a `mention` object whose `attrs.id` equals the account
id; otherwise the walk recurses into `content`, and over every element of
an array. -/
def adfContainsMention : Adf → String → Bool
  | .nullv, _ => false
  | .str _, _ => false
  | .arr ns, accountId => adfContainsMentionList ns accountId
  | .obj ty attrsId _ _ content, accountId =>
    if ty = "mention" ∧ attrsId = some accountId then true
    else
      match content with
      | some c => adfContainsMention c accountId
      | none => false

/-- Embedding of the `node.some(...)` step of `adfContainsMention` over an
array of nodes. -/
def adfContainsMentionList : List Adf → String → Bool
  | [], _ => false
  | n :: ns, accountId =>
    adfContainsMention n accountId || adfContainsMentionList ns accountId
end

mutual
/-- Embedding of `adfText` (src/jira.ts lines 382-392): flattens a node
tree to plain text, substituting mention nodes by their display text and
hard breaks by newlines. -/
def adfText : Adf → String
  | .nullv => ""
  | .str s => s
  | .arr ns => adfTextList ns
  | .obj ty _ attrsText text content =>
    if ty = "text" then text.getD ""
    else if ty = "mention" then attrsText.getD ""
    else if ty = "hardBreak" then "\n"
    else
      match content with
      | some c => adfText c
      | none => ""

/-- Embedding of the `node.map(adfText).join("")` step over an array of
nodes. -/
def adfTextList : List Adf → String
  | [] => ""
  | n :: ns => adfText n ++ adfTextList ns
end

/-- Descendant relation on ADF nodes: a node is a descendant of itself, of
any array containing a node it is a descendant of, and of any object whose
`content` it is a descendant of.  This is the notion of nesting used by the
mention-gating claim. -/
inductive AdfDesc : Adf → Adf → Prop where
  | refl (n : Adf) : AdfDesc n n
  | inArr {m n : Adf} (ns : List Adf) : n ∈ ns → AdfDesc m n → AdfDesc m (.arr ns)
  | inObj {m n : Adf} (ty : String) (attrsId attrsText text : Option String) :
      AdfDesc m n → AdfDesc m (.obj ty attrsId attrsText text (some n))

/-- Some descendant of `n` is a mention node whose `attrs.id` is
`accountId`. -/
def HasMentionDesc (n : Adf) (accountId : String) : Prop :=
  ∃ attrsText text content,
    AdfDesc (Adf.obj "mention" (some accountId) attrsText text content) n

/-! ## Character-level string utilities

The handlers use `String.prototype.startsWith`, `String.prototype.split`,
template interpolation of numbers, and `Number(...)`.  These are modelled
at the character-list level. -/

/-- Character-list version of `startsWith`: the first list is a leading
segment of the second. -/
def leadsList : List Char → List Char → Bool
  | [], _ => true
  | _ :: _, [] => false
  | a :: as, b :: bs => a = b && leadsList as bs

/-- JS `s.startsWith(t)` over the character lists of the strings. -/
def strLeads (t s : String) : Bool :=
  leadsList t.data s.data

/-- JS `s.split(sep)` for a one-character separator: splits into the
(possibly empty) segments between occurrences of `sep`; the empty string
splits into one empty segment. -/
def jsSplit (sep : Char) : List Char → List (List Char)
  | [] => [[]]
  | c :: cs =>
    if c = sep then [] :: jsSplit sep cs
    else
      match jsSplit sep cs with
      | h :: t => (c :: h) :: t
      | [] => [[c]]

/-- Decimal digit character for a value below ten. -/
def decDigitChar (d : Nat) : Char :=
  if d = 0 then '0' else if d = 1 then '1' else if d = 2 then '2'
  else if d = 3 then '3' else if d = 4 then '4' else if d = 5 then '5'
  else if d = 6 then '6' else if d = 7 then '7' else if d = 8 then '8'
  else '9'

/-- Accumulator pass producing the decimal digits of a positive number. -/
def natDigitsAux : Nat → List Char → List Char
  | 0, acc => acc
  | n + 1, acc => natDigitsAux ((n + 1) / 10) (decDigitChar ((n + 1) % 10) :: acc)
decreasing_by exact Nat.div_lt_self (Nat.succ_pos n) (by omega)

/-- Decimal rendering of a natural number, as produced by JS template
interpolation of a nonnegative integer. -/
def natDigits (n : Nat) : List Char :=
  if n = 0 then ['0'] else natDigitsAux n []

/-- Value of a list of decimal digit characters, read left to right. -/
def digitsToNat (cs : List Char) : Nat :=
  cs.foldl (fun a c => a * 10 + (c.toNat - 48)) 0

/-! ### Supporting lemmas for the digit renderer -/

theorem decDigitChar_isDigit (d : Nat) : (decDigitChar d).isDigit = true := by
  unfold decDigitChar
  repeat' split
  all_goals decide

theorem decDigitChar_toNat (d : Nat) (h : d < 10) :
    (decDigitChar d).toNat = 48 + d := by
  interval_cases d <;> decide

theorem natDigitsAux_append (n : Nat) (acc : List Char) :
    natDigitsAux n acc = natDigitsAux n [] ++ acc := by
  induction n using Nat.strong_induction_on generalizing acc with
  | _ n ih =>
    match n with
    | 0 => simp [natDigitsAux]
    | m + 1 =>
      rw [natDigitsAux, natDigitsAux,
        ih ((m + 1) / 10) (Nat.div_lt_self (Nat.succ_pos m) (by omega))
          (decDigitChar ((m + 1) % 10) :: acc),
        ih ((m + 1) / 10) (Nat.div_lt_self (Nat.succ_pos m) (by omega))
          [decDigitChar ((m + 1) % 10)]]
      simp

theorem digitsToNat_append_one (cs : List Char) (c : Char) :
    digitsToNat (cs ++ [c]) = digitsToNat cs * 10 + (c.toNat - 48) := by
  simp [digitsToNat, List.foldl_append]

theorem digitsToNat_natDigitsAux (n : Nat) (h : 0 < n) :
    digitsToNat (natDigitsAux n []) = n := by
  induction n using Nat.strong_induction_on with
  | _ n ih =>
    match n with
    | 0 => omega
    | m + 1 =>
      rw [natDigitsAux, natDigitsAux_append]
      rcases Nat.eq_zero_or_pos ((m + 1) / 10) with h0 | hpos
      · rw [h0]
        simp [natDigitsAux, digitsToNat,
          decDigitChar_toNat ((m + 1) % 10) (Nat.mod_lt _ (by omega))]
        omega
      · rw [digitsToNat_append_one,
          ih ((m + 1) / 10) (Nat.div_lt_self (Nat.succ_pos m) (by omega)) hpos,
          decDigitChar_toNat ((m + 1) % 10) (Nat.mod_lt _ (by omega))]
        omega

theorem digitsToNat_natDigits (n : Nat) : digitsToNat (natDigits n) = n := by
  unfold natDigits
  split
  · simp [digitsToNat]
    omega
  · exact digitsToNat_natDigitsAux n (by omega)

theorem natDigits_ne_nil (n : Nat) : natDigits n ≠ [] := by
  unfold natDigits
  split
  · simp
  · rename_i h
    have hx : ∀ m acc, acc ≠ [] → natDigitsAux m acc ≠ [] := by
      intro m
      induction m using Nat.strong_induction_on with
      | _ m ih =>
        intro acc hacc
        match m with
        | 0 => simpa [natDigitsAux]
        | k + 1 =>
          rw [natDigitsAux]
          exact ih ((k + 1) / 10) (Nat.div_lt_self (Nat.succ_pos k) (by omega)) _ (by simp)
    match n, h with
    | m + 1, _ =>
      rw [natDigitsAux, natDigitsAux_append]
      simp

theorem natDigits_all_digit (n : Nat) :
    ∀ c ∈ natDigits n, c.isDigit = true := by
  unfold natDigits
  split
  · intro c hc
    simp at hc
    subst hc
    decide
  · have hx : ∀ m acc, (∀ c ∈ acc, c.isDigit = true) →
        ∀ c ∈ natDigitsAux m acc, c.isDigit = true := by
      intro m
      induction m using Nat.strong_induction_on with
      | _ m ih =>
        intro acc hacc
        match m with
        | 0 => simpa [natDigitsAux]
        | k + 1 =>
          rw [natDigitsAux]
          refine ih ((k + 1) / 10) (Nat.div_lt_self (Nat.succ_pos k) (by omega)) _ ?_
          intro c hc
          rcases List.mem_cons.mp hc with h1 | h2
          · subst h1; exact decDigitChar_isDigit _
          · exact hacc c h2
    exact hx n [] (by simp)

/-! ## JS `Number(string)` (finite outcomes)

`parseGhPrChatId` converts the last key segment with `Number(...)` and
gates on `Number.isFinite(n) && n > 0`.  `jsNumberFinite s` returns
`some q` exactly when `Number(s)` is a finite number of value `q`, and
`none` when it is `NaN` or an infinity (either way the gate fails
identically, so the two non-finite outcomes need not be distinguished). -/

/-- ASCII/latin-1 whitespace accepted by the JS numeric conversion trim. -/
def jsWhitespace (c : Char) : Bool :=
  c = ' ' || c = '\t' || c = '\n' || c = '\r' || c = '\x0b' || c = '\x0c' || c = '\xa0'

/-- Trim leading and trailing whitespace from a character list. -/
def jsTrim (cs : List Char) : List Char :=
  ((cs.dropWhile jsWhitespace).reverse.dropWhile jsWhitespace).reverse

/-- Parse the optional exponent suffix of a decimal numeric literal; the
whole remainder must be consumed. -/
def parseExpPart : List Char → Option Int
  | [] => some 0
  | c :: rest =>
    if c = 'e' ∨ c = 'E' then
      match rest with
      | '+' :: ds =>
        if ds ≠ [] ∧ ds.all Char.isDigit then some (digitsToNat ds) else none
      | '-' :: ds =>
        if ds ≠ [] ∧ ds.all Char.isDigit then some (-(digitsToNat ds : Int)) else none
      | ds =>
        if ds ≠ [] ∧ ds.all Char.isDigit then some (digitsToNat ds) else none
    else none

/-- Parse an unsigned decimal numeric literal
(`digits [. digits] [exp]` or `. digits [exp]`), consuming the whole
input. -/
def parseUnsignedDec (cs : List Char) : Option ℚ :=
  let ip := cs.takeWhile Char.isDigit
  let r1 := cs.dropWhile Char.isDigit
  match r1 with
  | '.' :: r2 =>
    let fp := r2.takeWhile Char.isDigit
    let r3 := r2.dropWhile Char.isDigit
    if ip = [] ∧ fp = [] then none
    else
      match parseExpPart r3 with
      | some e =>
        some (((digitsToNat ip : ℚ) + (digitsToNat fp : ℚ) / (10 : ℚ) ^ fp.length)
          * (10 : ℚ) ^ e)
      | none => none
  | _ =>
    if ip = [] then none
    else
      match parseExpPart r1 with
      | some e => some ((digitsToNat ip : ℚ) * (10 : ℚ) ^ e)
      | none => none

/-- Hexadecimal digit test. -/
def isHexChar (c : Char) : Bool :=
  c.isDigit || ('a' ≤ c && c ≤ 'f') || ('A' ≤ c && c ≤ 'F')

/-- Octal digit test. -/
def isOctChar (c : Char) : Bool :=
  '0' ≤ c && c ≤ '7'

/-- Binary digit test. -/
def isBinChar (c : Char) : Bool :=
  c = '0' || c = '1'

/-- Value of a hexadecimal digit character. -/
def hexCharVal (c : Char) : Nat :=
  if c.isDigit then c.toNat - 48 else if 'a' ≤ c then c.toNat - 87 else c.toNat - 55

/-- Value of a digit list in the given radix. -/
def radixToNat (r : Nat) (cs : List Char) : Nat :=
  cs.foldl (fun a c => a * r + hexCharVal c) 0

/-- Core of the numeric conversion, applied to the already-trimmed
character list. -/
def jsNumberCore (cs : List Char) : Option ℚ :=
  if cs = [] then some 0
  else if cs = "Infinity".data ∨ cs = "+Infinity".data ∨ cs = "-Infinity".data then none
  else if leadsList ['0', 'x'] cs ∨ leadsList ['0', 'X'] cs then
    if cs.drop 2 ≠ [] ∧ (cs.drop 2).all isHexChar
    then some (radixToNat 16 (cs.drop 2)) else none
  else if leadsList ['0', 'o'] cs ∨ leadsList ['0', 'O'] cs then
    if cs.drop 2 ≠ [] ∧ (cs.drop 2).all isOctChar
    then some (radixToNat 8 (cs.drop 2)) else none
  else if leadsList ['0', 'b'] cs ∨ leadsList ['0', 'B'] cs then
    if cs.drop 2 ≠ [] ∧ (cs.drop 2).all isBinChar
    then some (radixToNat 2 (cs.drop 2)) else none
  else if cs.head? = some '-' then (parseUnsignedDec (cs.drop 1)).map (fun q => -q)
  else if cs.head? = some '+' then parseUnsignedDec (cs.drop 1)
  else parseUnsignedDec cs

/-- Finite outcomes of JS `Number(string)`: whitespace-trimmed empty input
is `0`; `Infinity` forms are non-finite; `0x`/`0o`/`0b` literals are
unsigned radix integers; otherwise an optionally signed decimal literal.
Any other input is `NaN` (also `none`). -/
def jsNumberFinite (s : String) : Option ℚ :=
  jsNumberCore (jsTrim s.data)

/-! ## Platform conversation-key codec -/

/-- Decoded platform conversation identity (owner, repo, PR number). -/
structure GhPrId where
  owner : String
  repo : String
  prNumber : ℚ
deriving Repr, DecidableEq

/-- Element of a list of split segments at an index, with `[]` for
out-of-range access: models `parts[i] ?? ""`. -/
def segAt : List (List Char) → Nat → List Char
  | [], _ => []
  | x :: _, 0 => x
  | _ :: xs, n + 1 => segAt xs n

/-- Embedding of `parseGhPrChatId` (src/agent.ts lines 1958-1971): reject
null/empty ids, ids not led by `gh-pr~`, ids without exactly four
`~`-separated segments, empty owner or repo segments, and number segments
whose conversion is not a finite positive number. -/
def parseGhPrChatId (id : Option String) : Option GhPrId :=
  match id with
  | none => none
  | some s =>
    if s.data = [] then none
    else if ¬ strLeads "gh-pr~" s then none
    else if (jsSplit '~' s.data).length ≠ 4 then none
    else if String.mk (segAt (jsSplit '~' s.data) 1) = "" ∨
        String.mk (segAt (jsSplit '~' s.data) 2) = "" ∨
        jsNumberFinite (String.mk (segAt (jsSplit '~' s.data) 3)) = none ∨
        (jsNumberFinite (String.mk (segAt (jsSplit '~' s.data) 3))).getD 0 ≤ 0
      then none
    else some ⟨String.mk (segAt (jsSplit '~' s.data) 1),
      String.mk (segAt (jsSplit '~' s.data) 2),
      (jsNumberFinite (String.mk (segAt (jsSplit '~' s.data) 3))).getD 0⟩

/-- Conversation key built by the platform webhook handlers
(src/agent.ts lines 2143-2145 and siblings): the template
interpolation of owner, repo and PR number. -/
def ghPrChatId (owner repo : String) (number : Nat) : String :=
  "gh-pr~" ++ owner ++ "~" ++ repo ++ "~" ++ String.mk (natDigits number)

/-! ### Lemmas about prefixes, splitting and numeric conversion -/

theorem leadsList_append_self (xs ys : List Char) :
    leadsList xs (xs ++ ys) = true := by
  induction xs with
  | nil => rfl
  | cons a as ih => simp [leadsList, ih]

theorem leadsList_iff (xs zs : List Char) :
    leadsList xs zs = true ↔ ∃ ys, zs = xs ++ ys := by
  induction xs generalizing zs with
  | nil => simp [leadsList]
  | cons a as ih =>
    cases zs with
    | nil => simp [leadsList]
    | cons b bs =>
      simp only [leadsList, Bool.and_eq_true, decide_eq_true_eq, ih]
      constructor
      · rintro ⟨hab, ys, hys⟩
        exact ⟨ys, by simp [hab.symm, hys]⟩
      · rintro ⟨ys, hys⟩
        simp only [List.cons_append, List.cons.injEq] at hys
        exact ⟨hys.1.symm, ys, hys.2⟩

theorem jsSplit_of_not_mem (sep : Char) (xs : List Char) (h : sep ∉ xs) :
    jsSplit sep xs = [xs] := by
  induction xs with
  | nil => rfl
  | cons c cs ih =>
    have hc : ¬ c = sep := fun hcon => h (by simp [hcon])
    rw [jsSplit, if_neg hc, ih (fun hcon => h (by simp [hcon]))]

theorem jsSplit_append_sep (sep : Char) (xs ys : List Char) (h : sep ∉ xs) :
    jsSplit sep (xs ++ sep :: ys) = xs :: jsSplit sep ys := by
  induction xs with
  | nil => simp [jsSplit]
  | cons c cs ih =>
    have hc : ¬ c = sep := fun hcon => h (by simp [hcon])
    rw [List.cons_append, jsSplit, if_neg hc, ih (fun hcon => h (by simp [hcon]))]

theorem takeWhile_eq_self_of_all (p : Char → Bool) (cs : List Char)
    (h : ∀ c ∈ cs, p c = true) : cs.takeWhile p = cs := by
  induction cs with
  | nil => rfl
  | cons c cs ih =>
    rw [List.takeWhile_cons, h c (by simp), ih (fun x hx => h x (by simp [hx]))]
    simp

theorem dropWhile_eq_nil_of_all (p : Char → Bool) (cs : List Char)
    (h : ∀ c ∈ cs, p c = true) : cs.dropWhile p = [] := by
  induction cs with
  | nil => rfl
  | cons c cs ih =>
    rw [List.dropWhile_cons, h c (by simp)]
    exact ih (fun x hx => h x (by simp [hx]))

theorem dropWhile_eq_self_of_none (p : Char → Bool) (cs : List Char)
    (h : ∀ c ∈ cs, p c = false) : cs.dropWhile p = cs := by
  cases cs with
  | nil => rfl
  | cons c cs => simp [List.dropWhile_cons, h c (by simp)]

theorem digit_not_jsWhitespace (c : Char) (h : c.isDigit = true) :
    jsWhitespace c = false := by
  by_contra hcon
  have hws : jsWhitespace c = true := by
    cases hx : jsWhitespace c
    · exact absurd hx hcon
    · rfl
  simp only [jsWhitespace, Bool.or_eq_true, decide_eq_true_eq] at hws
  rcases hws with ((((((h1 | h1) | h1) | h1) | h1) | h1) | h1) <;>
    (subst h1; exact absurd h (by decide))

theorem jsTrim_of_digits (cs : List Char) (h : ∀ c ∈ cs, c.isDigit = true) :
    jsTrim cs = cs := by
  unfold jsTrim
  rw [dropWhile_eq_self_of_none _ _ (fun c hc => digit_not_jsWhitespace c (h c hc)),
    dropWhile_eq_self_of_none _ _
      (fun c hc => digit_not_jsWhitespace c (h c (List.mem_reverse.mp hc))),
    List.reverse_reverse]

theorem jsNumberCore_digits (cs : List Char) (h1 : cs ≠ [])
    (h2 : ∀ c ∈ cs, c.isDigit = true) :
    jsNumberCore cs = some ((digitsToNat cs : ℚ)) := by
  cases cs with
  | nil => exact absurd rfl h1
  | cons c rest =>
    have hcd : c.isDigit = true := h2 c (by simp)
    have hinf : ¬ (c :: rest = "Infinity".data ∨ c :: rest = "+Infinity".data ∨
        c :: rest = "-Infinity".data) := by
      rintro (hcon | hcon | hcon) <;>
        (have hhead := List.head_eq_of_cons_eq hcon; subst hhead;
          exact absurd hcd (by decide))
    have hsecond : ∀ (x : Char), x.isDigit = false →
        leadsList ['0', x] (c :: rest) = false := by
      intro x hx
      cases hl : leadsList ['0', x] (c :: rest)
      · rfl
      · rcases (leadsList_iff _ _).mp hl with ⟨ys, hys⟩
        have hxmem : x ∈ c :: rest := by
          rw [hys]; simp
        rw [h2 x hxmem] at hx
        exact absurd hx (by simp)
    have hcminus : ¬ (c :: rest).head? = some '-' := by
      simp only [List.head?_cons, Option.some.injEq]
      intro hcon; subst hcon; exact absurd hcd (by decide)
    have hcplus : ¬ (c :: rest).head? = some '+' := by
      simp only [List.head?_cons, Option.some.injEq]
      intro hcon; subst hcon; exact absurd hcd (by decide)
    rw [jsNumberCore, if_neg (by simp), if_neg hinf]
    rw [hsecond 'x' (by decide), hsecond 'X' (by decide)]
    simp only [Bool.false_eq_true, or_self, if_false]
    rw [hsecond 'o' (by decide), hsecond 'O' (by decide)]
    simp only [Bool.false_eq_true, or_self, if_false]
    rw [hsecond 'b' (by decide), hsecond 'B' (by decide)]
    simp only [Bool.false_eq_true, or_self, if_false]
    rw [if_neg hcminus, if_neg hcplus]
    unfold parseUnsignedDec
    rw [takeWhile_eq_self_of_all _ _ h2, dropWhile_eq_nil_of_all _ _ h2]
    simp [parseExpPart]

theorem jsNumberFinite_digits (cs : List Char) (h1 : cs ≠ [])
    (h2 : ∀ c ∈ cs, c.isDigit = true) :
    jsNumberFinite (String.mk cs) = some ((digitsToNat cs : ℚ)) := by
  unfold jsNumberFinite
  have hdata : (String.mk cs).data = cs := rfl
  rw [hdata, jsTrim_of_digits cs h2]
  exact jsNumberCore_digits cs h1 h2

theorem ghPrChatId_data (o r : String) (n : Nat) :
    (ghPrChatId o r n).data =
      ['g', 'h', '-', 'p', 'r'] ++
        '~' :: (o.data ++ '~' :: (r.data ++ '~' :: natDigits n)) := by
  unfold ghPrChatId
  repeat rw [String.data_append]
  show ['g', 'h', '-', 'p', 'r', '~'] ++ o.data ++ ['~'] ++ r.data ++ ['~'] ++
    natDigits n = _
  simp

theorem jsSplit_ghPrChatId (o r : String) (n : Nat)
    (ho : '~' ∉ o.data) (hr : '~' ∉ r.data) :
    jsSplit '~' (ghPrChatId o r n).data =
      [['g', 'h', '-', 'p', 'r'], o.data, r.data, natDigits n] := by
  rw [ghPrChatId_data, jsSplit_append_sep _ _ _ (by decide),
    jsSplit_append_sep _ _ _ ho, jsSplit_append_sep _ _ _ hr,
    jsSplit_of_not_mem _ _ (fun hmem => by
      have hd := natDigits_all_digit n '~' hmem
      exact absurd hd (by decide))]

theorem parseGhPrChatId_roundTrip (o r : String) (n : Nat)
    (ho1 : o ≠ "") (hr1 : r ≠ "") (ho2 : '~' ∉ o.data) (hr2 : '~' ∉ r.data)
    (hn : 0 < n) :
    parseGhPrChatId (some (ghPrChatId o r n)) = some ⟨o, r, (n : ℚ)⟩ := by
  have hne : ¬ (ghPrChatId o r n).data = [] := by
    rw [ghPrChatId_data]; simp
  have hlead : strLeads "gh-pr~" (ghPrChatId o r n) = true := by
    unfold strLeads
    rw [ghPrChatId_data]
    have hl : ("gh-pr~").data = (['g', 'h', '-', 'p', 'r', '~'] : List Char) := rfl
    rw [hl]
    have ha : (['g', 'h', '-', 'p', 'r'] : List Char) ++
        '~' :: (o.data ++ '~' :: (r.data ++ '~' :: natDigits n)) =
        ['g', 'h', '-', 'p', 'r', '~'] ++
          (o.data ++ '~' :: (r.data ++ '~' :: natDigits n)) := by simp
    rw [ha]
    exact leadsList_append_self _ _
  have hsplit := jsSplit_ghPrChatId o r n ho2 hr2
  have hnum : jsNumberFinite (String.mk (natDigits n)) = some ((n : ℚ)) := by
    rw [jsNumberFinite_digits (natDigits n) (natDigits_ne_nil n)
      (natDigits_all_digit n), digitsToNat_natDigits]
  simp only [parseGhPrChatId]
  rw [if_neg hne, if_neg (by simp [hlead]), hsplit]
  have hmk : ∀ t : String, String.mk t.data = t := fun t => rfl
  have hs1 : segAt [['g', 'h', '-', 'p', 'r'], o.data, r.data, natDigits n] 1 =
      o.data := rfl
  have hs2 : segAt [['g', 'h', '-', 'p', 'r'], o.data, r.data, natDigits n] 2 =
      r.data := rfl
  have hs3 : segAt [['g', 'h', '-', 'p', 'r'], o.data, r.data, natDigits n] 3 =
      natDigits n := rfl
  rw [if_neg (by simp)]
  rw [hs1, hs2, hs3, hmk o, hmk r, hnum]
  rw [if_neg (by
    push_neg
    refine ⟨ho1, hr1, by simp, ?_⟩
    simp only [Option.getD_some, not_le]
    exact_mod_cast hn)]
  simp

theorem parseGhPrChatId_shape (k : String) (t : GhPrId)
    (h : parseGhPrChatId (some k) = some t) :
    strLeads "gh-pr~" k = true ∧ (jsSplit '~' k.data).length = 4 ∧
      t.owner ≠ "" ∧ t.repo ≠ "" ∧ 0 < t.prNumber := by
  simp only [parseGhPrChatId] at h
  split_ifs at h with h1 h2 h3 h4
  cases h
  push_neg at h2 h4
  obtain ⟨ho, hr, hnum2, hq⟩ := h4
  refine ⟨by simpa using h2, by simpa using h3, ho, hr, ?_⟩
  cases hm : jsNumberFinite (String.mk (segAt (jsSplit '~' k.data) 3)) with
  | none => exact absurd hm hnum2
  | some q =>
    rw [hm] at hq
    simp only [Option.getD_some, not_le] at hq
    simpa [hm] using hq

/-! ### Characterization of the mention walk -/

theorem adfContainsMention_nullv (i : String) :
    adfContainsMention .nullv i = false := rfl

theorem adfContainsMention_str (s : String) (i : String) :
    adfContainsMention (.str s) i = false := rfl

theorem adfContainsMention_arr (ns : List Adf) (i : String) :
    adfContainsMention (.arr ns) i = adfContainsMentionList ns i := rfl

theorem adfContainsMention_obj (ty : String) (aid atx tx : Option String)
    (ct : Option Adf) (i : String) :
    adfContainsMention (.obj ty aid atx tx ct) i =
      if ty = "mention" ∧ aid = some i then true
      else
        match ct with
        | some c => adfContainsMention c i
        | none => false := by
  rw [adfContainsMention.eq_def]

theorem adfContainsMentionList_exists (ns : List Adf) (i : String) :
    adfContainsMentionList ns i = true ↔
      ∃ n ∈ ns, adfContainsMention n i = true := by
  induction ns with
  | nil => simp [adfContainsMentionList]
  | cons n ns ih => simp [adfContainsMentionList, Bool.or_eq_true, ih]

theorem contains_to_desc (k : Nat) :
    ∀ (n : Adf), sizeOf n ≤ k → ∀ i, adfContainsMention n i = true →
      HasMentionDesc n i := by
  induction k with
  | zero =>
    intro n hn
    exfalso
    cases n <;> simp at hn
  | succ k ih =>
    intro n hn i hc
    match n with
    | .nullv => simp [adfContainsMention_nullv] at hc
    | .str s => simp [adfContainsMention_str] at hc
    | .arr ns =>
      rw [adfContainsMention_arr] at hc
      obtain ⟨n2, hmem, hc2⟩ := (adfContainsMentionList_exists ns i).mp hc
      have hsz : sizeOf n2 ≤ k := by
        have h1 := List.sizeOf_lt_of_mem hmem
        have h2 : sizeOf (Adf.arr ns) = 1 + sizeOf ns := by simp
        omega
      obtain ⟨atx, tx, ct, hdesc⟩ := ih n2 hsz i hc2
      exact ⟨atx, tx, ct, AdfDesc.inArr ns hmem hdesc⟩
    | .obj ty attrsId atx2 tx2 content =>
      rw [adfContainsMention_obj] at hc
      split at hc
      · rename_i hcond
        obtain ⟨hty, hid⟩ := hcond
        subst hty
        subst hid
        exact ⟨atx2, tx2, content, AdfDesc.refl _⟩
      · match content, hc with
        | some c, hc =>
          have hsz : sizeOf c ≤ k := by
            have h2 : sizeOf (Adf.obj ty attrsId atx2 tx2 (some c)) =
                1 + sizeOf ty + sizeOf attrsId + sizeOf atx2 + sizeOf tx2 +
                  (1 + sizeOf c) := by simp
            omega
          obtain ⟨atx, tx, ct, hdesc⟩ := ih c hsz i hc
          exact ⟨atx, tx, ct, AdfDesc.inObj ty attrsId atx2 tx2 hdesc⟩

theorem contains_of_desc (i : String) (atx tx : Option String) (ct : Option Adf)
    (m n : Adf) (hm : m = Adf.obj "mention" (some i) atx tx ct)
    (hd : AdfDesc m n) : adfContainsMention n i = true := by
  induction hd with
  | refl =>
    subst hm
    rw [adfContainsMention_obj]
    simp
  | inArr ns hmem hdd ih =>
    rw [adfContainsMention_arr]
    exact (adfContainsMentionList_exists ns i).mpr ⟨_, hmem, ih⟩
  | inObj ty a1 a2 a3 hdd ih =>
    rw [adfContainsMention_obj]
    split
    · rfl
    · exact ih

theorem adfContainsMention_iff_desc (n : Adf) (i : String) :
    adfContainsMention n i = true ↔ HasMentionDesc n i := by
  constructor
  · exact contains_to_desc (sizeOf n) n le_rfl i
  · rintro ⟨atx, tx, ct, hdesc⟩
    exact contains_of_desc i atx tx ct _ n rfl hdesc

/-! ## Webhook request handling

Embedding of the latest revision of `onRequest` in src/agent.ts
(lines 2096-2426) together with the pieces of `sendMessages`
(lines 1975-2088) that the claims concern.  External effects (the chat
upsert, the key/value store, the comment re-fetch) appear as explicit
inputs and outputs: the chat id returned by `blink.chat.upsert(key)` is
the key itself, the store write and the enqueued messages are returned in
the outcome, and the re-fetch of a comment body is an oracle supplied in
the environment.  The JSON (de)serialization of the stored record is
assumed faithful. -/

/-- Record stored under `jira-meta-<chatId>` (src/agent.ts lines
2406-2409): issue key, issue URL, and the comment author id
(`null` when absent). -/
structure JiraMeta where
  issueKey : String
  issueUrl : String
  authorId : Option String
deriving Repr, DecidableEq

/-- One message enqueued by `blink.chat.message` for a conversation. -/
structure EnqueuedChat where
  chatId : String
  text : String
deriving Repr, DecidableEq

/-- The inbound `comment.body` field: absent/null, a string together with
its `JSON.parse` outcome (`none` when parsing throws), or an inline ADF
value. -/
inductive BodyVal : Type where
  | absent : BodyVal
  | strBody : String → Option Adf → BodyVal
  | adfBody : Adf → BodyVal

/-- The inbound `comment` object: resolved author id
(`comment?.author?.accountId ?? comment?.authorId`), resolved comment id
(`comment?.id ?? comment?.commentId`), and body. -/
structure WebhookComment where
  authorId : Option String
  commentId : Option String
  body : BodyVal

/-- The parsed tracker payload: resolved issue key
(`payload?.issue?.key ?? payload?.key`) and comment object. -/
structure WebhookPayload where
  issueKey : Option String
  comment : Option WebhookComment

/-- Presence of the three platform webhook headers and the outcome of the
signature verification (external crypto). -/
structure GithubHeaders where
  hasDelivery : Bool
  hasEvent : Bool
  hasSignature : Bool
  verified : Bool

/-- Payload of an `issue_comment` event as read by the handler. -/
structure IssueCommentEvent where
  senderLogin : Option String
  isPullRequest : Bool
  owner : String
  repo : String
  number : Nat
  commentBody : Option String

/-- Payload of a `pull_request_review_comment` event as read by the
handler. -/
structure ReviewCommentEvent where
  senderLogin : Option String
  owner : String
  repo : String
  number : Nat
  commentBody : Option String

/-- Payload of a `pull_request_review` event as read by the handler. -/
structure ReviewEvent where
  senderLogin : Option String
  owner : String
  repo : String
  number : Nat
  state : Option String
  body : Option String

/-- One entry of `check_run.pull_requests`: PR number and
`pr.head?.sha`. -/
structure PullRef where
  number : Nat
  headSha : Option String
deriving Repr, DecidableEq

/-- Payload of a `check_run.completed` event as read by the handler. -/
structure CheckRunEvent where
  conclusion : Option String
  headSha : String
  name : String
  detailsUrl : Option String
  pullRequests : List PullRef
  owner : String
  repo : String

/-- The platform event delivered by `verifyAndReceive` to the registered
handlers; unrecognized event names fall under `other`. -/
inductive GhEvent : Type where
  | issueComment : IssueCommentEvent → GhEvent
  | reviewComment : ReviewCommentEvent → GhEvent
  | review : ReviewEvent → GhEvent
  | checkRunCompleted : CheckRunEvent → GhEvent
  | other : GhEvent

/-- An inbound HTTP request as read by `onRequest`: path, authorization
header, the tracker payload (`none` when the body is unparseable JSON),
and the platform headers/event. -/
structure AgentRequest where
  path : String
  authHeader : Option String
  jiraPayload : Option WebhookPayload
  ghHeaders : GithubHeaders
  ghEvent : Option GhEvent

/-- Tracker-side environment: configured automation secret, the resolved
service-account id (`getServiceAccountId`), the site base
(`getJiraSiteBase`), and the comment re-fetch oracle
(issue key and comment id to `none` when the request throws, otherwise
`some` of the fetched optional body). -/
structure JiraEnv where
  automationSecret : Option String
  serviceAccountId : String
  siteBase : Option String
  fetchCommentBody : String → String → Option (Option Adf)

/-- Platform-side environment: webhook secret and configured bot login. -/
structure GithubEnv where
  webhookSecret : Option String
  botLogin : Option String

/-- Outcome of one `onRequest` invocation: HTTP status, at most one store
write, and the enqueued chat messages. -/
structure OnRequestOutcome where
  status : Nat
  kvWrite : Option (String × JiraMeta)
  enqueued : List EnqueuedChat
deriving Repr, DecidableEq

/-- JS falsiness of an optional ADF value. -/
def jsFalsyAdf : Option Adf → Bool
  | none => true
  | some a => !a.truthy

/-- Template interpolation of a possibly-absent login
(`${e.payload.sender?.login}` renders an absent login as the string
`undefined`). -/
def renderLogin : Option String → String
  | some s => s
  | none => "undefined"

/-- Template interpolation of the check-run conclusion (`null` renders as
the string `null`). -/
def renderConclusion : Option String → String
  | some s => s
  | none => "null"

/-- JS `s.replace(/\x2f$/, "")`: drop one trailing slash. -/
def stripTrailingSlash (s : String) : String :=
  if s.data.getLast? = some '/' then String.mk s.data.dropLast else s

/-- The tracker path rejects the request iff a nonempty automation secret
is configured and the authorization header is not exactly
`Bearer <secret>` (src/agent.ts lines 2328-2337). -/
def jiraAuthRejected (secret authHeader : Option String) : Bool :=
  match secret with
  | some sec => sec != "" && authHeader != some ("Bearer " ++ sec)
  | none => false

/-- The inline comment body after the string-parse step
(src/agent.ts lines 2364-2371). -/
def parsedInlineBody : BodyVal → Option Adf
  | .absent => none
  | .strBody _ parsed => parsed
  | .adfBody a => some a

/-- The comment body after the optional re-fetch by comment id
(src/agent.ts lines 2372-2386): when the inline body is falsy and a
comment id is present, the handler re-fetches; a throwing fetch leaves the
body unchanged, a successful fetch replaces it with `fetched?.body`. -/
def resolvedAdfBody (env : JiraEnv) (issueKey : String)
    (c : WebhookComment) : Option Adf :=
  if jsFalsyAdf (parsedInlineBody c.body) && jsTruthyStr c.commentId then
    match c.commentId with
    | some cid =>
      match env.fetchCommentBody issueKey cid with
      | none => parsedInlineBody c.body
      | some b => b
    | none => parsedInlineBody c.body
  else parsedInlineBody c.body

/-- The `/jira` pipeline of `onRequest` (src/agent.ts lines 2328-2425):
authentication, payload validation, body resolution, mention gating, then
the store write and the enqueued composed message. -/
def handleJiraPath (env : JiraEnv) (req : AgentRequest) : OnRequestOutcome :=
  if jiraAuthRejected env.automationSecret req.authHeader then ⟨401, none, []⟩
  else
    match req.jiraPayload with
    | none => ⟨400, none, []⟩
    | some payload =>
      match payload.comment with
      | none => ⟨200, none, []⟩
      | some c =>
        if !jsTruthyStr payload.issueKey then ⟨200, none, []⟩
        else
          let issueKey := payload.issueKey.getD ""
          let adfBody := resolvedAdfBody env issueKey c
          let hasMention := !jsFalsyAdf adfBody &&
            (match adfBody with
             | some a => adfContainsMention a env.serviceAccountId
             | none => false)
          if jsFalsyAdf adfBody || !hasMention then ⟨200, none, []⟩
          else
            let userText :=
              (match adfBody with
               | some a => adfText a
               | none => "").trim
            let base := stripTrailingSlash (env.siteBase.getD "https://example.invalid")
            let issueUrl := base ++ "/browse/" ++ issueKey
            let chatId := "jira-" ++ issueKey
            let composed := String.join ([userText,
              "\n\nISSUE_URL: " ++ issueUrl,
              if jsTruthyStr c.authorId
              then "MENTION_ACCOUNT_ID: " ++ c.authorId.getD "" else ""
              ].filter (fun t => t != ""))
            ⟨200, some ("jira-meta-" ++ chatId, ⟨issueKey, issueUrl, c.authorId⟩),
              [⟨chatId, composed⟩]⟩

/-- Sender-equals-bot guard shared by the three platform comment/review
handlers (src/agent.ts lines 2134-2138 and siblings). -/
def botDropped (botLogin senderLogin : Option String) : Bool :=
  match botLogin with
  | some b => b != "" && senderLogin == some b
  | none => false

/-- The `issue_comment` handler (src/agent.ts lines 2132-2173). -/
def handleIssueComment (botLogin : Option String)
    (e : IssueCommentEvent) : List EnqueuedChat :=
  if botDropped botLogin e.senderLogin then []
  else if !e.isPullRequest then []
  else
    [⟨ghPrChatId e.owner e.repo e.number,
      String.intercalate "\n"
        (["GitHub event: issue_comment by " ++ renderLogin e.senderLogin,
          "", "Comment:", e.commentBody.getD "", "",
          "TARGET: " ++ e.owner ++ "/" ++ e.repo ++ " #" ++
            String.mk (natDigits e.number)].filter (fun t => t != ""))⟩]

/-- The `pull_request_review_comment` handler
(src/agent.ts lines 2175-2215). -/
def handleReviewComment (botLogin : Option String)
    (e : ReviewCommentEvent) : List EnqueuedChat :=
  if botDropped botLogin e.senderLogin then []
  else
    [⟨ghPrChatId e.owner e.repo e.number,
      String.intercalate "\n"
        (["GitHub event: pull_request_review_comment by " ++
            renderLogin e.senderLogin,
          "", "Comment:", e.commentBody.getD "", "",
          "TARGET: " ++ e.owner ++ "/" ++ e.repo ++ " #" ++
            String.mk (natDigits e.number)].filter (fun t => t != ""))⟩]

/-- The `pull_request_review` handler (src/agent.ts lines 2217-2259). -/
def handleReview (botLogin : Option String)
    (e : ReviewEvent) : List EnqueuedChat :=
  if botDropped botLogin e.senderLogin then []
  else
    [⟨ghPrChatId e.owner e.repo e.number,
      String.intercalate "\n"
        (["GitHub event: pull_request_review (" ++ e.state.getD "" ++ ") by " ++
            renderLogin e.senderLogin,
          "", if e.body.getD "" != "" then "Review body:" else "",
          e.body.getD "", "",
          "TARGET: " ++ e.owner ++ "/" ++ e.repo ++ " #" ++
            String.mk (natDigits e.number)].filter (fun t => t != ""))⟩]

/-- The `check_run.completed` handler (src/agent.ts lines 2261-2309):
drop successful or skipped conclusions, then enqueue one message per
listed pull request whose current head commit equals the check run's head
commit. -/
def handleCheckRunCompleted (e : CheckRunEvent) : List EnqueuedChat :=
  if e.conclusion == some "success" || e.conclusion == some "skipped" then []
  else
    (e.pullRequests.filter (fun pr => pr.headSha == some e.headSha)).map
      (fun pr =>
        ⟨ghPrChatId e.owner e.repo pr.number,
          String.intercalate "\n"
            (["GitHub event: check_run.completed (non-success)", "",
              String.intercalate "\n"
                (["Check: " ++ e.name,
                  "Conclusion: " ++ renderConclusion e.conclusion,
                  if jsTruthyStr e.detailsUrl
                  then "Details: " ++ e.detailsUrl.getD "" else ""
                  ].filter (fun t => t != "")),
              "",
              "TARGET: " ++ e.owner ++ "/" ++ e.repo ++ " #" ++
                String.mk (natDigits pr.number)].filter (fun t => t != ""))⟩)

/-- The `/github` pipeline of `onRequest` (src/agent.ts lines 2106-2320):
require a configured webhook secret and the three headers, verify the
signature, then dispatch the event to the registered handlers. -/
def handleGithubPath (genv : GithubEnv) (req : AgentRequest) : OnRequestOutcome :=
  if !jsTruthyStr genv.webhookSecret then ⟨401, none, []⟩
  else if !(req.ghHeaders.hasSignature && req.ghHeaders.hasDelivery &&
      req.ghHeaders.hasEvent) then ⟨401, none, []⟩
  else if !req.ghHeaders.verified then ⟨500, none, []⟩
  else
    ⟨200, none,
      match req.ghEvent with
      | some (.issueComment e) => handleIssueComment genv.botLogin e
      | some (.reviewComment e) => handleReviewComment genv.botLogin e
      | some (.review e) => handleReview genv.botLogin e
      | some (.checkRunCompleted e) => handleCheckRunCompleted e
      | _ => []⟩

/-- Top-level `onRequest` dispatch (src/agent.ts lines 2096-2326):
`/github` paths go to the platform pipeline, paths not starting with
`/jira` are acknowledged `200 OK`, the rest go to the tracker pipeline. -/
def onRequest (genv : GithubEnv) (env : JiraEnv) (req : AgentRequest) :
    OnRequestOutcome :=
  if strLeads "/github" req.path then handleGithubPath genv req
  else if !strLeads "/jira" req.path then ⟨200, none, []⟩
  else handleJiraPath env req

/-! ## Correlation store and session-context resolution -/

/-- The external key/value store, keyed by string, holding the
JSON-serialized `JiraMeta` records. -/
def KvStore : Type := String → Option JiraMeta

/-- An empty store (every lookup misses). -/
def kvEmpty : KvStore := fun _ => none

/-- `blink.storage.kv.set`: unconditional overwrite of one key. -/
def kvSet (st : KvStore) (k : String) (v : JiraMeta) : KvStore :=
  fun q => if q = k then some v else st q

/-- Apply the store write of one request outcome to a store. -/
def applyOutcome (st : KvStore) (o : OnRequestOutcome) : KvStore :=
  match o.kvWrite with
  | some kv => kvSet st kv.1 kv.2
  | none => st

/-- Session-context resolution at the start of a chat turn
(src/agent.ts lines 1975-1995): read `jira-meta-<chat.id>` from the
store; a missing chat yields no context.  The latest user message text is
accepted as an argument to document that this revision never consults it:
no footer-scanning fallback exists in `sendMessages`. -/
def resolveSessionMeta (st : KvStore) (chatId : Option String)
    (latestUserText : String) : Option JiraMeta :=
  match chatId, latestUserText with
  | some cid, _ => st ("jira-meta-" ++ cid)
  | none, _ => none

/-! ## Tool-set composition (src/agent.ts lines 2021-2088) -/

/-- Names of the tools returned by `createJiraTools`
(src/jira.ts lines 395-819), in declaration order. -/
def jiraToolNames : List String :=
  ["jira_reply", "jira_env_check", "jira_add_comment", "jira_get_issue_by_url",
    "jira_get_issue_context", "jira_find_user", "jira_list_projects",
    "jira_list_tasks", "jira_create_issue", "jira_update_issue_fields",
    "jira_list_transitions", "jira_transition_issue", "jira_link_issue"]

/-- Names of the tools composed for a turn (src/agent.ts lines 2021-2088):
the date utility, every tracker tool, and every external platform tool
under the `github_` name tag; `jira_reply` is then deleted when the
resolved context carries no truthy issue URL. -/
def composeToolNames (meta : Option JiraMeta) (ghToolNames : List String) :
    List String :=
  if !jsTruthyStr (meta.map JiraMeta.issueUrl) &&
      ("get_current_date" :: jiraToolNames ++
        ghToolNames.map (fun n => "github_" ++ n)).contains "jira_reply"
  then ("get_current_date" :: jiraToolNames ++
    ghToolNames.map (fun n => "github_" ++ n)).erase "jira_reply"
  else "get_current_date" :: jiraToolNames ++
    ghToolNames.map (fun n => "github_" ++ n)

/-! ## Issue-key extraction from a URL (src/jira.ts lines 85-93)

The function reads `u.searchParams.get("selectedIssue")` and `u.pathname`
from the parsed URL; the embedding takes those two components directly.
The regex `[A-Z][A-Z0-9_]+-\d+` with the `i` flag is an ASCII letter, one
or more word characters (letters, digits, underscore), a hyphen, and one
or more digits; `match` returns the leftmost occurrence.  Because the word
class excludes the hyphen and nothing follows the digits, the regex needs
no backtracking: at each start position the maximal word run must be
followed by the hyphen and at least one digit. -/

/-- The two URL components read by `parseIssueKeyFromUrl`. -/
structure UrlParts where
  pathname : String
  selectedIssue : Option String

/-- Word characters of the issue-key regex body: `[A-Z0-9_]` under the
`i` flag. -/
def wordCharJ (c : Char) : Bool :=
  c.isAlpha || c.isDigit || c = '_'

/-- Try to match the issue-key regex anchored at the head of the list;
returns the matched characters. -/
def keyMatchAt : List Char → Option (List Char)
  | [] => none
  | c :: rest =>
    if c.isAlpha then
      match rest.dropWhile wordCharJ with
      | '-' :: rest3 =>
        if (rest.takeWhile wordCharJ) = [] ∨ (rest3.takeWhile Char.isDigit) = []
        then none
        else some (c :: rest.takeWhile wordCharJ ++
          '-' :: rest3.takeWhile Char.isDigit)
      | _ => none
    else none

/-- Leftmost match of the issue-key regex in the list. -/
def findKeyMatch : List Char → Option (List Char)
  | [] => none
  | c :: rest =>
    match keyMatchAt (c :: rest) with
    | some m => some m
    | none => findKeyMatch rest

/-- JS `toUpperCase` on the ASCII characters the issue-key regex can
match. -/
def charUpper (c : Char) : Char :=
  if 'a' ≤ c ∧ c ≤ 'z' then Char.ofNat (c.toNat - 32) else c

/-- Embedding of `parseIssueKeyFromUrl` (src/jira.ts lines 85-93): a
truthy `selectedIssue` query parameter is returned as-is; otherwise the
leftmost issue-key match in the pathname is returned uppercased; otherwise
the function throws. -/
def parseIssueKeyFromUrl (u : UrlParts) : Except String String :=
  if jsTruthyStr u.selectedIssue then .ok (u.selectedIssue.getD "")
  else
    match findKeyMatch u.pathname.data with
    | some m => .ok (String.mk (m.map charUpper))
    | none => .error "Unable to parse issue key from URL"

/-- The pathname contains an occurrence of the issue-key pattern:
a letter, a nonempty word run, a hyphen, and a nonempty digit run. -/
def ContainsKeyPattern (cs : List Char) : Prop :=
  ∃ (p : List Char) (a : Char) (run d q : List Char),
    cs = p ++ a :: (run ++ '-' :: (d ++ q)) ∧ a.isAlpha = true ∧
      run ≠ [] ∧ (∀ c ∈ run, wordCharJ c = true) ∧
      d ≠ [] ∧ (∀ c ∈ d, c.isDigit = true)

/-! ## Helper lemmas about the request pipeline -/

theorem strLeads_jira_not_github (p : String)
    (h : strLeads "/jira" p = true) : strLeads "/github" p = false := by
  rcases (leadsList_iff _ _).mp h with ⟨ys, hys⟩
  unfold strLeads
  rw [hys]
  show leadsList ['/', 'g', 'i', 't', 'h', 'u', 'b']
    (['/', 'j', 'i', 'r', 'a'] ++ ys) = false
  simp [leadsList]

theorem jiraAuthRejected_iff (secret authHeader : Option String) :
    jiraAuthRejected secret authHeader = true ↔
      ∃ s, secret = some s ∧ s ≠ "" ∧ authHeader ≠ some ("Bearer " ++ s) := by
  cases secret with
  | none => simp [jiraAuthRejected]
  | some sec =>
    simp only [jiraAuthRejected, Bool.and_eq_true, bne_iff_ne, ne_eq,
      Option.some.injEq]
    constructor
    · rintro ⟨h1, h2⟩
      exact ⟨sec, rfl, h1, h2⟩
    · rintro ⟨s, hs, h1, h2⟩
      cases hs
      exact ⟨h1, h2⟩

/-! ## Concrete fixtures used by witnesses and counterexamples -/

/-- An ADF document whose only mention node targets the given account
id. -/
def mentionDoc (accId : String) : Adf :=
  .obj "doc" none none none (some (.arr [
    .obj "paragraph" none none none (some (.arr [
      .obj "mention" (some accId) (some "agent") none none,
      .obj "text" none none (some " hi") none]))]))

/-- Tracker environment with no automation secret, service account
`svc-1`, and a configured site base; the re-fetch oracle always throws. -/
def envSvc : JiraEnv :=
  ⟨none, "svc-1", some "https://x.atlassian.net", fun _ _ => none⟩

/-- Platform environment with no webhook secret and no bot login. -/
def ghEnvNone : GithubEnv := ⟨none, none⟩

/-- Github headers of a request that never reaches the platform
pipeline. -/
def ghHeadersNone : GithubHeaders := ⟨false, false, false, false⟩

/-- A classified `/jira` request whose comment is authored by the service
account itself and whose body structurally mentions the service
account. -/
def selfCommentReq : AgentRequest :=
  ⟨"/jira", none,
    some ⟨some "ABC-1", some ⟨some "svc-1", none, .adfBody (mentionDoc "svc-1")⟩⟩,
    ghHeadersNone, none⟩

/-! ## Claim C1 -/

/-- C1 (code bug): the specification claims that a classified tracker
event whose comment author id equals the resolved service-account id never
results in an enqueued chat message.  The latest `/jira` pipeline in
src/agent.ts (lines 2347-2425) has no author check (the earlier revision
at lines 1112-1117 drops such events with the comment `Avoid loops`):
evaluated at a classified event authored by the service account itself
whose body structurally mentions the service account, the handler writes
the store and enqueues a chat message. -/
theorem c1_self_authored_event_is_enqueued :
    (∃ payload c, selfCommentReq.jiraPayload = some payload ∧
      payload.comment = some c ∧ c.authorId = some envSvc.serviceAccountId) ∧
    (onRequest ghEnvNone envSvc selfCommentReq).status = 200 ∧
    (onRequest ghEnvNone envSvc selfCommentReq).enqueued ≠ [] := by
  refine ⟨⟨_, _, rfl, rfl, rfl⟩, ?_, ?_⟩ <;> decide

/-! ## Claim C2 -/

/-- C2: mention gating.  First, `adfContainsMention node id` returns true
exactly when some descendant of `node` (at any nesting depth, through
arrays and object content) is a `mention` node whose `attrs.id` equals
`id`.  Second, for every classified tracker request (authenticated `/jira`
request whose payload carries a truthy issue key and a comment), the
handler enqueues a message exactly when the resolved comment body is a
truthy ADF value containing such a mention of the service account. -/
theorem c2_mention_gating (a : Adf) (i : String) (genv : GithubEnv)
    (env : JiraEnv) (req : AgentRequest) (payload : WebhookPayload)
    (c : WebhookComment)
    (hpath : strLeads "/jira" req.path = true)
    (hauth : jiraAuthRejected env.automationSecret req.authHeader = false)
    (hp : req.jiraPayload = some payload)
    (hc : payload.comment = some c)
    (hkey : jsTruthyStr payload.issueKey = true) :
    (adfContainsMention a i = true ↔ HasMentionDesc a i) ∧
    ((onRequest genv env req).enqueued ≠ [] ↔
      ∃ b, resolvedAdfBody env (payload.issueKey.getD "") c = some b ∧
        b.truthy = true ∧ adfContainsMention b env.serviceAccountId = true) := by
  refine ⟨adfContainsMention_iff_desc a i, ?_⟩
  have hgh := strLeads_jira_not_github req.path hpath
  simp only [onRequest, hgh, hpath, Bool.false_eq_true, if_false,
    Bool.not_true, Bool.true_eq_false, if_true]
  simp only [handleJiraPath, hauth, hp, hc, hkey, Bool.false_eq_true,
    if_false, Bool.not_true]
  cases hres : resolvedAdfBody env (payload.issueKey.getD "") c with
  | none => simp [jsFalsyAdf]
  | some b =>
    cases htr : b.truthy with
    | false => simp [jsFalsyAdf, htr]
    | true =>
      cases hcm : adfContainsMention b env.serviceAccountId with
      | false => simp [jsFalsyAdf, htr, hcm]
      | true => simp [jsFalsyAdf, htr, hcm]

/-- A classified `/jira` request authored by an ordinary user whose body
mentions the service account. -/
def userCommentReq : AgentRequest :=
  ⟨"/jira", none,
    some ⟨some "ABC-1", some ⟨some "u-1", none, .adfBody (mentionDoc "svc-1")⟩⟩,
    ghHeadersNone, none⟩

/-- Witness for C2 at a concrete classified request. -/
theorem c2_mention_gating_witness :
    ((adfContainsMention (mentionDoc "svc-1") "svc-1" = true ↔
       HasMentionDesc (mentionDoc "svc-1") "svc-1") ∧
     ((onRequest ghEnvNone envSvc userCommentReq).enqueued ≠ [] ↔
       ∃ b, resolvedAdfBody envSvc "ABC-1"
           ⟨some "u-1", none, .adfBody (mentionDoc "svc-1")⟩ = some b ∧
         b.truthy = true ∧ adfContainsMention b "svc-1" = true)) :=
  c2_mention_gating (mentionDoc "svc-1") "svc-1" ghEnvNone envSvc userCommentReq
    ⟨some "ABC-1", some ⟨some "u-1", none, .adfBody (mentionDoc "svc-1")⟩⟩
    ⟨some "u-1", none, .adfBody (mentionDoc "svc-1")⟩
    (by decide) (by decide) rfl rfl (by decide)

/-! ## Claim C4 -/

/-- C4: identity round-trip of the platform conversation-key codec.  For
every well-formed tuple (nonempty owner and repo without the separator
character, positive number), encoding as `gh-pr~owner~repo~number` and
decoding with `parseGhPrChatId` restores the tuple.  Conversely the
decoder only ever succeeds on keys led by `gh-pr~` with exactly four
segments, nonempty owner and repo, and a finite positive number — so every
malformed key (wrong prefix, wrong segment count, empty owner or repo,
non-numeric or non-positive number) yields `none`; the decoder is a total
function, so it never throws. -/
theorem c4_platform_key_roundtrip :
    (∀ (o r : String) (n : Nat), o ≠ "" → r ≠ "" → '~' ∉ o.data →
      '~' ∉ r.data → 0 < n →
      parseGhPrChatId (some (ghPrChatId o r n)) = some ⟨o, r, (n : ℚ)⟩) ∧
    (∀ (k : String) (t : GhPrId), parseGhPrChatId (some k) = some t →
      strLeads "gh-pr~" k = true ∧ (jsSplit '~' k.data).length = 4 ∧
        t.owner ≠ "" ∧ t.repo ≠ "" ∧ 0 < t.prNumber) ∧
    parseGhPrChatId none = none ∧
    parseGhPrChatId (some "gh-issue~octo~hello~7") = none ∧
    parseGhPrChatId (some "gh-pr~octo~hello~7~8") = none ∧
    parseGhPrChatId (some "gh-pr~~hello~7") = none ∧
    parseGhPrChatId (some "gh-pr~octo~hello~abc") = none := by
  refine ⟨?_, parseGhPrChatId_shape, rfl, ?_, ?_, ?_, ?_⟩
  · intro o r n ho1 hr1 ho2 hr2 hn
    exact parseGhPrChatId_roundTrip o r n ho1 hr1 ho2 hr2 hn
  all_goals decide

/-- Witness for C4 at a concrete well-formed key. -/
theorem c4_platform_key_roundtrip_witness :
    parseGhPrChatId (some (ghPrChatId "octo" "hello" 7)) =
      some ⟨"octo", "hello", (7 : ℚ)⟩ :=
  c4_platform_key_roundtrip.1 "octo" "hello" 7 (by decide) (by decide)
    (by decide) (by decide) (by decide)

/-! ## Claim C8 -/

theorem handleJiraPath_status (env : JiraEnv) (req : AgentRequest) :
    (handleJiraPath env req).status =
      if jiraAuthRejected env.automationSecret req.authHeader = true then 401
      else if req.jiraPayload.isNone = true then 400
      else 200 := by
  cases hauth : jiraAuthRejected env.automationSecret req.authHeader with
  | true => simp [handleJiraPath, hauth]
  | false =>
    cases hp : req.jiraPayload with
    | none => simp [handleJiraPath, hauth, hp]
    | some payload =>
      simp only [hauth, Bool.false_eq_true, if_false, hp, reduceCtorEq]
      cases hcm : payload.comment with
      | none => simp [handleJiraPath, hauth, hp, hcm]
      | some c =>
        cases hkey : jsTruthyStr payload.issueKey with
        | false => simp [handleJiraPath, hauth, hp, hcm, hkey]
        | true =>
          simp only [handleJiraPath, hauth, Bool.false_eq_true, if_false,
            hp, hcm, hkey, Bool.not_true]
          split <;> rfl

/-- C8: response codes of `onRequest`.  On a `/jira` request the response
is `401` exactly when a nonempty automation secret is configured and the
authorization header is not `Bearer <secret>`; it is `400` exactly when
authentication passes and the request body is unparseable JSON; every
other classification outcome (including all no-ops) answers `200`; and a
request whose path starts with neither `/jira` nor `/github` is
acknowledged `200 OK` with no side effects. -/
theorem c8_response_codes (genv : GithubEnv) (env : JiraEnv)
    (req : AgentRequest) :
    (strLeads "/jira" req.path = true →
      (((onRequest genv env req).status = 401 ↔
         ∃ s, env.automationSecret = some s ∧ s ≠ "" ∧
           req.authHeader ≠ some ("Bearer " ++ s)) ∧
       ((onRequest genv env req).status = 400 ↔
         (jiraAuthRejected env.automationSecret req.authHeader = false ∧
           req.jiraPayload.isNone = true)) ∧
       ((onRequest genv env req).status = 401 ∨
         (onRequest genv env req).status = 400 ∨
         (onRequest genv env req).status = 200))) ∧
    ((strLeads "/jira" req.path = false ∧ strLeads "/github" req.path = false) →
      onRequest genv env req = ⟨200, none, []⟩) := by
  constructor
  · intro hpath
    have hgh := strLeads_jira_not_github req.path hpath
    have hstat : (onRequest genv env req).status = (handleJiraPath env req).status := by
      simp [onRequest, hgh, hpath]
    rw [hstat, handleJiraPath_status]
    cases hauth : jiraAuthRejected env.automationSecret req.authHeader with
    | true =>
      rw [if_pos rfl]
      refine ⟨⟨fun _ => (jiraAuthRejected_iff _ _).mp hauth, fun _ => rfl⟩,
        ⟨fun hcon => absurd hcon (by decide),
         fun hpair => Bool.noConfusion hpair.1⟩,
        Or.inl rfl⟩
    | false =>
      rw [if_neg (by decide)]
      cases hp : req.jiraPayload with
      | none =>
        rw [if_pos (show (none : Option WebhookPayload).isNone = true from rfl)]
        refine ⟨⟨fun hcon => absurd hcon (by decide),
          fun hex => Bool.noConfusion
            (hauth ▸ (jiraAuthRejected_iff _ _).mpr hex)⟩,
          ⟨fun _ => ⟨rfl, rfl⟩, fun _ => rfl⟩,
          Or.inr (Or.inl rfl)⟩
      | some payload =>
        rw [if_neg (by simp)]
        refine ⟨⟨fun hcon => absurd hcon (by decide),
          fun hex => Bool.noConfusion
            (hauth ▸ (jiraAuthRejected_iff _ _).mpr hex)⟩,
          ⟨fun hcon => absurd hcon (by decide),
           fun hpair => Bool.noConfusion hpair.2⟩,
          Or.inr (Or.inr rfl)⟩
  · rintro ⟨hj, hg⟩
    simp [onRequest, hj, hg]

/-- Witness for C8: a request to an unrelated path is acknowledged
`200 OK`, and a secretless `/jira` request with an unparseable body is
`400`. -/
theorem c8_response_codes_witness :
    onRequest ghEnvNone envSvc ⟨"/health", none, none, ghHeadersNone, none⟩ =
      ⟨200, none, []⟩ ∧
    (onRequest ghEnvNone envSvc
      ⟨"/jira", none, none, ghHeadersNone, none⟩).status = 400 :=
  ⟨(c8_response_codes ghEnvNone envSvc
      ⟨"/health", none, none, ghHeadersNone, none⟩).2 ⟨by decide, by decide⟩,
   ((c8_response_codes ghEnvNone envSvc
      ⟨"/jira", none, none, ghHeadersNone, none⟩).1 (by decide)).2.1.mpr
      ⟨by decide, by decide⟩⟩

/-! ## Claim C10 -/

/-- C10: stale and successful check runs never notify.  A
`check_run.completed` event whose conclusion is `success` or `skipped`
enqueues nothing for any pull request; and every enqueued message comes
from a non-success, non-skipped conclusion and from a listed pull request
whose current head commit equals the check run's head commit, addressed to
that pull request's conversation key. -/
theorem c10_check_run_filtering (e : CheckRunEvent) :
    ((e.conclusion = some "success" ∨ e.conclusion = some "skipped") →
      handleCheckRunCompleted e = []) ∧
    (∀ m ∈ handleCheckRunCompleted e,
      e.conclusion ≠ some "success" ∧ e.conclusion ≠ some "skipped" ∧
        ∃ pr ∈ e.pullRequests, pr.headSha = some e.headSha ∧
          m.chatId = ghPrChatId e.owner e.repo pr.number) := by
  constructor
  · intro h
    unfold handleCheckRunCompleted
    rcases h with h | h <;> simp [h]
  · intro m hm
    unfold handleCheckRunCompleted at hm
    split at hm
    · simp at hm
    · rename_i hconc
      rw [Bool.or_eq_true, not_or] at hconc
      obtain ⟨h1, h2⟩ := hconc
      refine ⟨by simpa using h1, by simpa using h2, ?_⟩
      obtain ⟨pr, hpr, hmk⟩ := List.mem_map.mp hm
      obtain ⟨hmem, hsha⟩ := List.mem_filter.mp hpr
      exact ⟨pr, hmem, by simpa using hsha, by rw [← hmk]⟩

/-- Witness for C10: a successful check run enqueues nothing, and the one
message of a failing check run targets the matching pull request's
conversation key. -/
theorem c10_check_run_filtering_witness :
    handleCheckRunCompleted
      ⟨some "success", "sha1", "build", none, [⟨7, some "sha1"⟩], "o", "r"⟩ = [] ∧
    ∀ m ∈ handleCheckRunCompleted
      ⟨some "failure", "sha1", "build", none,
        [⟨7, some "sha1"⟩, ⟨8, some "old"⟩], "o", "r"⟩,
      some "failure" ≠ some "success" ∧ some "failure" ≠ some "skipped" ∧
        ∃ pr ∈ [PullRef.mk 7 (some "sha1"), PullRef.mk 8 (some "old")],
          pr.headSha = some "sha1" ∧ m.chatId = ghPrChatId "o" "r" pr.number :=
  ⟨(c10_check_run_filtering
      ⟨some "success", "sha1", "build", none, [⟨7, some "sha1"⟩], "o", "r"⟩).1
      (Or.inl rfl),
   (c10_check_run_filtering
      ⟨some "failure", "sha1", "build", none,
        [⟨7, some "sha1"⟩, ⟨8, some "old"⟩], "o", "r"⟩).2⟩

/-! ## Claim C7 -/

/-- ASCII lowercase conversion used by the claim's case-insensitive
token test. -/
def lowerChar (c : Char) : Char :=
  if 'A' ≤ c ∧ c ≤ 'Z' then Char.ofNat (c.toNat + 32) else c

/-- Word character for whole-word token boundaries. -/
def isWordC (c : Char) : Bool :=
  c.isAlpha || c.isDigit || c = '_'

/-- Accumulator pass collecting maximal word-character runs. -/
def wordTokensAux : List Char → List Char → List (List Char)
  | [], cur => if cur = [] then [] else [cur.reverse]
  | c :: cs, cur =>
    if isWordC c then wordTokensAux cs (c :: cur)
    else if cur = [] then wordTokensAux cs []
    else cur.reverse :: wordTokensAux cs []

/-- Maximal word-character runs of a character list. -/
def wordTokens (cs : List Char) : List (List Char) :=
  wordTokensAux cs []

/-- Modelled from the spec: `containsNameToken(freeText, agentName)`
(§4.3 Mention/Loop Guard) — the case-insensitive whole-word test of the
agent name that the claim says gates platform comment events.  No such
gate exists anywhere in the handlers of src/agent.ts; this definition
exists only to state the counterexample against the claim. -/
def containsNameToken (freeText agentName : String) : Bool :=
  ((wordTokens freeText.data).map (fun t => t.map lowerChar)).contains
    (agentName.data.map lowerChar)

/-- Counterexample to C7: a platform `issue_comment` event on a pull
request by an ordinary sender whose text contains no whole-word occurrence
of the agent name (here `blink`, the name the repository uses for its
branch namespace) is nevertheless enqueued — the handlers at src/agent.ts
lines 2132-2215 contain no name-token gate. -/
theorem c7_counterexample :
    containsNameToken "please fix the tests" "blink" = false ∧
    handleIssueComment (some "bot")
      ⟨some "alice", true, "octo", "hello", 7, some "please fix the tests"⟩ ≠
      [] := by
  constructor
  · decide
  · decide

/-- C7 as amended: a platform comment event is dropped exactly when the
configured bot login is nonempty and equals the sender login, or (for
`issue_comment` events) when the issue is not a pull request; otherwise it
is enqueued regardless of the comment text — the handlers apply no
name-token gating. -/
theorem c7_amended_platform_comment_gating (botLogin : Option String)
    (e : IssueCommentEvent) (e2 : ReviewCommentEvent) :
    (handleIssueComment botLogin e = [] ↔
      (botDropped botLogin e.senderLogin = true ∨ e.isPullRequest = false)) ∧
    (handleReviewComment botLogin e2 = [] ↔
      botDropped botLogin e2.senderLogin = true) := by
  constructor
  · unfold handleIssueComment
    cases hb : botDropped botLogin e.senderLogin with
    | true => simp [hb]
    | false => cases hpr : e.isPullRequest <;> simp [hb, hpr]
  · unfold handleReviewComment
    cases hb : botDropped botLogin e2.senderLogin <;> simp [hb]

/-! ## Claim C9 -/

theorem githubTag_head (n : String) :
    ("github_" ++ n).data.head? = some 'g' := by
  rw [String.data_append]
  rfl

theorem githubTag_ne (n t : String) (h : t.data.head? ≠ some 'g') :
    ("github_" ++ n) ≠ t := by
  intro hcon
  apply h
  rw [← hcon, githubTag_head]

/-- Counterexample to C9: with no tracker identity and no platform
identity resolved the composed tool set still contains every
`github_`-tagged platform tool, and it contains no workspace
initialization tool at all — the composer at src/agent.ts lines 2021-2088
adds the platform family unconditionally and this revision has no
workspace tools. -/
theorem c9_counterexample :
    "github_create_issue" ∈ composeToolNames none ["create_issue"] ∧
    "initialize_workspace" ∉ composeToolNames none ["create_issue"] ∧
    "jira_reply" ∉ composeToolNames none ["create_issue"] := by
  refine ⟨?_, ?_, ?_⟩ <;> decide

/-- C9 as amended: when the resolved context carries no truthy issue URL,
the composed tool set excludes the single-shot `jira_reply` tool; the
`get_current_date` utility is always included (for every resolved
context); every external platform tool is included under the `github_`
tag regardless of any platform identity; and no workspace-initialization
tool exists in the composed set. -/
theorem c9_amended_tool_composition (meta : Option JiraMeta)
    (gh : List String)
    (hmeta : jsTruthyStr (meta.map JiraMeta.issueUrl) = false) :
    "jira_reply" ∉ composeToolNames meta gh ∧
    "get_current_date" ∈ composeToolNames meta gh ∧
    (∀ n ∈ gh, ("github_" ++ n) ∈ composeToolNames meta gh) ∧
    "initialize_workspace" ∉ composeToolNames meta gh ∧
    (∀ meta2 : Option JiraMeta, "get_current_date" ∈ composeToolNames meta2 gh) := by
  have hcont : (("get_current_date" :: jiraToolNames ++
      gh.map (fun n => "github_" ++ n)).contains "jira_reply") = true := by
    simp [jiraToolNames]
  have hstruct : composeToolNames meta gh =
      "get_current_date" :: (jiraToolNames.erase "jira_reply" ++
        gh.map (fun n => "github_" ++ n)) := by
    unfold composeToolNames
    rw [hmeta]
    simp only [Bool.not_false, hcont, Bool.and_true, if_true]
    rw [List.erase_append_left _ (by simp [jiraToolNames])]
    rw [List.erase_cons_tail
      (show ¬(("get_current_date" : String) == "jira_reply") = true by decide)]
    simp
  refine ⟨?_, ?_, ?_, ?_, ?_⟩
  · rw [hstruct]
    intro hmem
    rcases List.mem_cons.mp hmem with hcon | hmem2
    · exact absurd hcon (by decide)
    · rcases List.mem_append.mp hmem2 with hcon | hcon
      · exact absurd hcon (by decide)
      · rcases List.mem_map.mp hcon with ⟨n, -, hn⟩
        exact githubTag_ne n "jira_reply" (by decide) hn
  · rw [hstruct]
    exact List.mem_cons_self _ _
  · intro n hn
    rw [hstruct]
    exact List.mem_cons_of_mem _
      (List.mem_append.mpr (Or.inr (List.mem_map.mpr ⟨n, hn, rfl⟩)))
  · rw [hstruct]
    intro hmem
    rcases List.mem_cons.mp hmem with hcon | hmem2
    · exact absurd hcon (by decide)
    · rcases List.mem_append.mp hmem2 with hcon | hcon
      · exact absurd hcon (by decide)
      · rcases List.mem_map.mp hcon with ⟨n, -, hn⟩
        exact githubTag_ne n "initialize_workspace" (by decide) hn
  · intro meta2
    unfold composeToolNames
    split
    · rw [List.erase_append_left _ (by simp [jiraToolNames])]
      rw [List.erase_cons_tail
        (show ¬(("get_current_date" : String) == "jira_reply") = true by decide)]
      simp
    · exact List.mem_cons_self _ _

/-- Witness for C9 at a concrete external tool family. -/
theorem c9_amended_tool_composition_witness :
    "jira_reply" ∉ composeToolNames none ["get_issue"] ∧
    "get_current_date" ∈ composeToolNames none ["get_issue"] ∧
    (∀ n ∈ ["get_issue"], ("github_" ++ n) ∈ composeToolNames none ["get_issue"]) ∧
    "initialize_workspace" ∉ composeToolNames none ["get_issue"] ∧
    (∀ meta2 : Option JiraMeta,
      "get_current_date" ∈ composeToolNames meta2 ["get_issue"]) :=
  c9_amended_tool_composition none ["get_issue"] (by decide)

/-! ## Claim C5 -/

/-- Second event for the same issue, this time without an author id. -/
def evNoAuthor : AgentRequest :=
  ⟨"/jira", none,
    some ⟨some "ABC-1", some ⟨none, none, .adfBody (mentionDoc "svc-1")⟩⟩,
    ghHeadersNone, none⟩

/-- Counterexample to C5: the upsert at src/agent.ts lines 2405-2409 is an
unconditional `kv.set` of the whole record, not a merge.  After a first
classified event with author `u-1` the stored record carries
`authorId = "u-1"`; a second classified event for the same issue without
an author id overwrites the record, resetting `authorId` to null — the
field set by the earlier event and absent from the later update does not
remain unchanged. -/
theorem c5_counterexample :
    (applyOutcome kvEmpty (onRequest ghEnvNone envSvc userCommentReq)
        "jira-meta-jira-ABC-1").map JiraMeta.authorId = some (some "u-1") ∧
    (applyOutcome (applyOutcome kvEmpty (onRequest ghEnvNone envSvc userCommentReq))
        (onRequest ghEnvNone envSvc evNoAuthor)
        "jira-meta-jira-ABC-1").map JiraMeta.authorId = some none := by
  constructor <;> decide

/-- C5 as amended: the upsert overwrites the stored record wholesale with
the record derived from the current event — the value stored under the
written key does not depend on the previous store contents (so fields
absent from the later event are reset rather than preserved) — and the
overwrite is idempotent: applying the same update twice yields the same
store as applying it once. -/
theorem c5_amended_overwrite_idempotent (env : JiraEnv) (req : AgentRequest)
    (st : KvStore) :
    applyOutcome (applyOutcome st (handleJiraPath env req))
        (handleJiraPath env req) =
      applyOutcome st (handleJiraPath env req) ∧
    (∀ k v, (handleJiraPath env req).kvWrite = some (k, v) →
      ∀ st2 : KvStore, applyOutcome st2 (handleJiraPath env req) k = some v) := by
  constructor
  · cases hw : (handleJiraPath env req).kvWrite with
    | none => simp [applyOutcome, hw]
    | some kv =>
      funext q
      simp only [applyOutcome, hw, kvSet]
      by_cases hq : q = kv.1 <;> simp [hq]
  · intro k v hw st2
    simp [applyOutcome, hw, kvSet]

/-- Witness for C5 at a concrete event: the double update equals the
single update, and the stored record is exactly the event's record. -/
theorem c5_amended_overwrite_idempotent_witness :
    applyOutcome (applyOutcome kvEmpty (handleJiraPath envSvc userCommentReq))
        (handleJiraPath envSvc userCommentReq) =
      applyOutcome kvEmpty (handleJiraPath envSvc userCommentReq) ∧
    applyOutcome kvEmpty (handleJiraPath envSvc userCommentReq)
        "jira-meta-jira-ABC-1" =
      some ⟨"ABC-1", "https://x.atlassian.net/browse/ABC-1", some "u-1"⟩ :=
  ⟨(c5_amended_overwrite_idempotent envSvc userCommentReq kvEmpty).1,
   (c5_amended_overwrite_idempotent envSvc userCommentReq kvEmpty).2
     "jira-meta-jira-ABC-1"
     ⟨"ABC-1", "https://x.atlassian.net/browse/ABC-1", some "u-1"⟩
     (by decide) kvEmpty⟩

/-! ## Claim C6 -/

theorem handleJiraPath_write_shape (env : JiraEnv) (req : AgentRequest)
    (k : String) (v : JiraMeta)
    (hw : (handleJiraPath env req).kvWrite = some (k, v)) :
    ∃ cid txt, k = "jira-meta-" ++ cid ∧
      (handleJiraPath env req).enqueued = [⟨cid, txt⟩] := by
  cases hauth : jiraAuthRejected env.automationSecret req.authHeader with
  | true => simp [handleJiraPath, hauth] at hw
  | false =>
    cases hp : req.jiraPayload with
    | none => simp [handleJiraPath, hauth, hp] at hw
    | some payload =>
      cases hcm : payload.comment with
      | none => simp [handleJiraPath, hauth, hp, hcm] at hw
      | some c =>
        cases hkey : jsTruthyStr payload.issueKey with
        | false => simp [handleJiraPath, hauth, hp, hcm, hkey] at hw
        | true =>
          simp only [handleJiraPath, hauth, hp, hcm, hkey,
            Bool.false_eq_true, if_false, Bool.not_true] at hw ⊢
          split at hw
          · simp at hw
          · rename_i hcond
            rw [if_neg hcond]
            simp only [Option.some.injEq, Prod.mk.injEq] at hw
            exact ⟨"jira-" ++ payload.issueKey.getD "", _, hw.1.symm, rfl⟩

/-- Counterexample to C6: `sendMessages` (src/agent.ts lines 1975-1995,
also src/unnamed/part_003 lines 45-57) reads only the store; with an empty
Correlation Store, a latest user message carrying the embedded
`ISSUE_URL:` and `MENTION_ACCOUNT_ID:` footer lines resolves to no context
at all — there is no footer-scanning fallback in this code. -/
theorem c6_counterexample :
    resolveSessionMeta kvEmpty (some "jira-ABC-1")
        "Hi\n\nISSUE_URL: https://x.atlassian.net/browse/ABC-1\nMENTION_ACCOUNT_ID: u-1"
      = none := by
  decide

/-- C6 as amended: when the store lookup for the conversation misses, the
resolved context is empty regardless of the latest user message text (no
footer fallback exists); context survives turns only through the store:
after any classified event, resolving with the enqueued message's
conversation id against the updated store returns exactly the record the
event wrote. -/
theorem c6_amended_store_only_resolution (st : KvStore) (txt : String)
    (cid : String) (hmiss : st ("jira-meta-" ++ cid) = none) :
    resolveSessionMeta st (some cid) txt = none ∧
    (∀ (env : JiraEnv) (req : AgentRequest) (k : String) (v : JiraMeta),
      (handleJiraPath env req).kvWrite = some (k, v) →
      ∀ m ∈ (handleJiraPath env req).enqueued,
        resolveSessionMeta (applyOutcome st (handleJiraPath env req))
          (some m.chatId) txt = some v) := by
  constructor
  · simpa [resolveSessionMeta] using hmiss
  · intro env req k v hw m hm
    obtain ⟨cid2, txt2, hk, henq⟩ := handleJiraPath_write_shape env req k v hw
    rw [henq] at hm
    rcases List.mem_singleton.mp hm with rfl
    simp only [resolveSessionMeta, applyOutcome, hw, kvSet]
    rw [if_pos hk.symm]

/-- Witness for C6: an empty store resolves no context for a
footer-bearing message, and after a concrete classified event the
resolver recovers the stored record through the store. -/
theorem c6_amended_store_only_resolution_witness :
    resolveSessionMeta kvEmpty (some "jira-ABC-1") "msg" = none ∧
    (∀ m ∈ (handleJiraPath envSvc userCommentReq).enqueued,
      resolveSessionMeta (applyOutcome kvEmpty (handleJiraPath envSvc userCommentReq))
        (some m.chatId) "msg" =
        some ⟨"ABC-1", "https://x.atlassian.net/browse/ABC-1", some "u-1"⟩) :=
  ⟨(c6_amended_store_only_resolution kvEmpty "msg" "jira-ABC-1" (by decide)).1,
   fun m hm =>
     (c6_amended_store_only_resolution kvEmpty "msg" "jira-ABC-1" (by decide)).2
       envSvc userCommentReq "jira-meta-jira-ABC-1"
       ⟨"ABC-1", "https://x.atlassian.net/browse/ABC-1", some "u-1"⟩
       (by decide) m hm⟩

/-! ## Claim C3 -/

/-- Shape of a returned issue-key match: a letter, a nonempty word run, a
hyphen, and a nonempty digit run. -/
def IsKeyShaped (m : List Char) : Prop :=
  ∃ (a : Char) (run d : List Char),
    m = a :: (run ++ '-' :: d) ∧ a.isAlpha = true ∧
      run ≠ [] ∧ (∀ x ∈ run, wordCharJ x = true) ∧
      d ≠ [] ∧ (∀ x ∈ d, x.isDigit = true)

theorem scan_run (p : Char → Bool) (run : List Char) (c : Char)
    (tail : List Char) (hrun : ∀ x ∈ run, p x = true) (hc : p c = false) :
    (run ++ c :: tail).takeWhile p = run ∧
      (run ++ c :: tail).dropWhile p = c :: tail := by
  induction run with
  | nil => simp [List.takeWhile_cons, List.dropWhile_cons, hc]
  | cons x xs ih =>
    have hx : p x = true := hrun x (by simp)
    obtain ⟨h1, h2⟩ := ih (fun y hy => hrun y (by simp [hy]))
    constructor
    · simp [List.takeWhile_cons, hx, h1]
    · simp [List.dropWhile_cons, hx, h2]

theorem mem_takeWhile_p (p : Char → Bool) :
    ∀ (l : List Char) (x : Char), x ∈ l.takeWhile p → p x = true := by
  intro l
  induction l with
  | nil => intro x hx; simp at hx
  | cons c cs ih =>
    intro x hx
    rw [List.takeWhile_cons] at hx
    cases hc : p c with
    | true =>
      rw [hc] at hx
      simp only [if_true] at hx
      rcases List.mem_cons.mp hx with rfl | hx2
      · exact hc
      · exact ih x hx2
    | false =>
      rw [hc] at hx
      simp at hx

theorem keyMatchAt_some (cs m : List Char) (h : keyMatchAt cs = some m) :
    ∃ a run d rest, cs = a :: (run ++ '-' :: (d ++ rest)) ∧
      a.isAlpha = true ∧ run ≠ [] ∧ (∀ x ∈ run, wordCharJ x = true) ∧
      d ≠ [] ∧ (∀ x ∈ d, x.isDigit = true) ∧
      m = a :: (run ++ '-' :: d) := by
  cases cs with
  | nil => simp [keyMatchAt] at h
  | cons c rest0 =>
    rw [keyMatchAt] at h
    split_ifs at h with halpha
    split at h
    · rename_i rest3 heq
      split_ifs at h with hcond
      cases h
      push_neg at hcond
      refine ⟨c, rest0.takeWhile wordCharJ, rest3.takeWhile Char.isDigit,
        rest3.dropWhile Char.isDigit, ?_, halpha, hcond.1, ?_, hcond.2, ?_, rfl⟩
      · conv_lhs => rw [← List.takeWhile_append_dropWhile wordCharJ rest0]
        rw [heq]
        conv_lhs =>
          rw [← List.takeWhile_append_dropWhile Char.isDigit rest3]
      · exact fun x hx => mem_takeWhile_p wordCharJ rest0 x hx
      · exact fun x hx => mem_takeWhile_p Char.isDigit rest3 x hx
    · cases h

theorem keyMatchAt_complete (a : Char) (run d rest : List Char)
    (ha : a.isAlpha = true) (hrn : run ≠ [])
    (hrw : ∀ x ∈ run, wordCharJ x = true)
    (hdn : d ≠ []) (hdd : ∀ x ∈ d, x.isDigit = true) :
    ∃ m, keyMatchAt (a :: (run ++ '-' :: (d ++ rest))) = some m := by
  obtain ⟨ht, hdp⟩ := scan_run wordCharJ run '-' (d ++ rest) hrw (by decide)
  cases d with
  | nil => exact absurd rfl hdn
  | cons x xs =>
    have hx : x.isDigit = true := hdd x (by simp)
    rw [keyMatchAt, if_pos ha, hdp]
    simp only [ht]
    rw [if_neg ?_]
    · exact ⟨_, rfl⟩
    · push_neg
      refine ⟨hrn, ?_⟩
      rw [List.cons_append, List.takeWhile_cons, hx]
      simp

theorem findKeyMatch_pattern : ∀ (cs m : List Char), findKeyMatch cs = some m →
    ContainsKeyPattern cs ∧ IsKeyShaped m := by
  intro cs
  induction cs with
  | nil => intro m h; simp [findKeyMatch] at h
  | cons c rest ih =>
    intro m h
    rw [findKeyMatch] at h
    cases hk : keyMatchAt (c :: rest) with
    | some m2 =>
      rw [hk] at h
      cases h
      obtain ⟨a, run, d, rest4, hcs, ha, hrn, hrw, hdn, hdd, hm⟩ :=
        keyMatchAt_some _ _ hk
      exact ⟨⟨[], a, run, d, rest4, by simpa using hcs, ha, hrn, hrw, hdn, hdd⟩,
        a, run, d, hm, ha, hrn, hrw, hdn, hdd⟩
    | none =>
      rw [hk] at h
      obtain ⟨⟨p, a, run, d, q, hcs, hrest⟩, hshape⟩ := ih m h
      exact ⟨⟨c :: p, a, run, d, q, by simp [hcs], hrest⟩, hshape⟩

theorem findKeyMatch_of_pattern (cs : List Char) (h : ContainsKeyPattern cs) :
    ∃ m, findKeyMatch cs = some m := by
  obtain ⟨p, a, run, d, q, hcs, ha, hrn, hrw, hdn, hdd⟩ := h
  subst hcs
  induction p with
  | nil =>
    obtain ⟨m, hm⟩ := keyMatchAt_complete a run d q ha hrn hrw hdn hdd
    refine ⟨m, ?_⟩
    show findKeyMatch (a :: (run ++ '-' :: (d ++ q))) = some m
    rw [findKeyMatch, hm]
  | cons c p2 ih =>
    show ∃ m, findKeyMatch (c :: (p2 ++ a :: (run ++ '-' :: (d ++ q)))) = some m
    rw [findKeyMatch]
    cases hk : keyMatchAt (c :: (p2 ++ a :: (run ++ '-' :: (d ++ q)))) with
    | some m2 => exact ⟨m2, rfl⟩
    | none => exact ih

/-- Counterexample to C3: for a URL carrying the `selectedIssue` query
parameter with an empty value (`?selectedIssue=`), the claim predicts the
parameter's value `""` is returned; the code's truthiness test skips empty
values, the path `/` has no key match, and the function throws instead. -/
theorem c3_counterexample :
    parseIssueKeyFromUrl ⟨"/", some ""⟩ =
      .error "Unable to parse issue key from URL" ∧
    parseIssueKeyFromUrl ⟨"/", some ""⟩ ≠ .ok "" := by
  constructor
  · rfl
  · intro hcon
    rw [show parseIssueKeyFromUrl ⟨"/", some ""⟩ =
      .error "Unable to parse issue key from URL" from rfl] at hcon
    exact Except.noConfusion hcon

/-- C3 as amended: a NONEMPTY `selectedIssue` query parameter is returned
verbatim; otherwise extraction succeeds exactly when the pathname contains
an occurrence of the pattern: an ASCII letter, one or more word characters
(letters, digits, underscore), a hyphen, and one or more digits — matched
case-insensitively — and the returned key is the leftmost such occurrence
uppercased; otherwise the function fails with the parse error.  The
claim's concrete examples hold: `/browse/xyz-42` with no parameter yields
`XYZ-42`, and a URL with neither yields the error. -/
theorem c3_amended_issue_key_extraction (u : UrlParts) :
    (∀ s, u.selectedIssue = some s → s ≠ "" → parseIssueKeyFromUrl u = .ok s) ∧
    (jsTruthyStr u.selectedIssue = false →
      ((∃ k, parseIssueKeyFromUrl u = .ok k) ↔
        ContainsKeyPattern u.pathname.data)) ∧
    (∀ k, jsTruthyStr u.selectedIssue = false →
      parseIssueKeyFromUrl u = .ok k →
      ∃ m, findKeyMatch u.pathname.data = some m ∧
        k = String.mk (m.map charUpper) ∧ IsKeyShaped m) ∧
    parseIssueKeyFromUrl ⟨"/browse/xyz-42", none⟩ = .ok "XYZ-42" ∧
    parseIssueKeyFromUrl ⟨"/", none⟩ =
      .error "Unable to parse issue key from URL" := by
  refine ⟨?_, ?_, ?_, rfl, rfl⟩
  · intro s hs hne
    unfold parseIssueKeyFromUrl
    rw [if_pos (by simp [jsTruthyStr, hs, hne]), hs]
    rfl
  · intro hf
    unfold parseIssueKeyFromUrl
    rw [if_neg (by simp [hf])]
    constructor
    · rintro ⟨k, hk⟩
      cases hm : findKeyMatch u.pathname.data with
      | none => rw [hm] at hk; cases hk
      | some m => exact (findKeyMatch_pattern _ m hm).1
    · intro hpat
      obtain ⟨m, hm⟩ := findKeyMatch_of_pattern _ hpat
      rw [hm]
      exact ⟨_, rfl⟩
  · intro k hf hk
    unfold parseIssueKeyFromUrl at hk
    rw [if_neg (by simp [hf])] at hk
    cases hm : findKeyMatch u.pathname.data with
    | none => rw [hm] at hk; cases hk
    | some m =>
      rw [hm] at hk
      cases hk
      exact ⟨m, rfl, rfl, (findKeyMatch_pattern _ m hm).2⟩

/-- Witness for C3 at concrete URLs. -/
theorem c3_amended_issue_key_extraction_witness :
    parseIssueKeyFromUrl ⟨"/browse/ABC-9", some "ABC-123"⟩ = .ok "ABC-123" :=
  (c3_amended_issue_key_extraction ⟨"/browse/ABC-9", some "ABC-123"⟩).1
    "ABC-123" rfl (by decide)

end JiraAgent
